import Mathlib

/-!
# Verification of `alan`, a minimal Turing-machine interpreter

Shallow embedding of `src/alan.rs`.  The program parses a rule file and a
tape file into a list of transition cases and a tape of symbols, then runs
a machine step by step, printing the tape at every step, until no rule
matches (halt), the head would move below index 0 (tape underflow, a
reported error), or the head indexes past the end of the tape (an
out-of-bounds panic in the original).

Machine integers (`usize` head) are modelled as `Nat`; fallible code
returns explicit result types; the partial tape indexing `tape[head]`
is modelled with `List.getElem?`, a `none` answer standing for the
out-of-bounds panic of the original.
-/

namespace Alan

/-- `struct Symbol { name: &str }` — an atomic text label (alan.rs:10-13). -/
structure Symbol where
  name : String
deriving DecidableEq, Repr

/-- `enum Step { Left, Right }` (alan.rs:15-19). -/
inductive Step where
  | Left : Step
  | Right : Step
deriving DecidableEq, Repr

/-- `struct Case` — one transition rule (alan.rs:21-28). -/
structure Case where
  state : Symbol
  read : Symbol
  write : Symbol
  step : Step
  next : Symbol
deriving DecidableEq, Repr

/-- `struct Machine` (alan.rs:30-37). -/
structure Machine where
  state : Symbol
  tape : List Symbol
  tape_default : Symbol
  head : Nat
  halt : Bool
deriving DecidableEq, Repr

/-- Result of one call to `Machine::next` (alan.rs:40-62).  The original
mutates `self` and returns `Result<(), ()>`; we return the machine.
`underflow m` is the `Err(())` return of the `head == 0` branch, carrying
the machine as the caller observes it after the failed call (the tape
write at alan.rs:43 has already happened).  `oob` is the panic of the
indexing `self.tape[self.head]` when `head` is out of bounds. -/
inductive StepResult where
  | ok : Machine → StepResult
  | underflow : Machine → StepResult
  | oob : StepResult
deriving DecidableEq, Repr

/-- The body of the rule-application branch of `Machine::next`
(alan.rs:43-58): write `case.write` into `tape[head]`, move the head
(erroring when a Left move starts at head 0 — note the write has already
happened), set the state to `case.next` and clear `halt`. -/
def applyCase (m : Machine) (c : Case) : StepResult :=
  let m1 : Machine := { m with tape := m.tape.set m.head c.write }
  match c.step with
  | Step.Left =>
      if m1.head = 0 then
        StepResult.underflow m1
      else
        StepResult.ok { m1 with head := m1.head - 1, state := c.next, halt := false }
  | Step.Right =>
      StepResult.ok { m1 with head := m1.head + 1, state := c.next, halt := false }

/-- `Machine::next` (alan.rs:40-62): scan the cases in order; the first
case whose `(state, read)` equals `(self.state, self.tape[self.head])` is
applied and the scan stops (`break`); if none matches the machine is
returned unchanged (`Ok(())` with no mutation).  The `&&` of the source
short-circuits, so `tape[head]` is only indexed once a case's `state`
field matches the machine state; indexing out of bounds is the `oob`
outcome. -/
def Machine.next (m : Machine) : List Case → StepResult
  | [] => StepResult.ok m
  | c :: cases =>
      if c.state = m.state then
        match m.tape[m.head]? with
        | none => StepResult.oob
        | some cur =>
            if c.read = cur then applyCase m c
            else m.next cases
      else m.next cases

/-- The first case in the list matching the pair `(st, cur)` — the rule
`Machine::next` applies when the head read is `cur` (first match in file
order wins). -/
def firstMatch : List Case → Symbol → Symbol → Option Case
  | [], _, _ => none
  | c :: cases, st, cur =>
      if c.state = st ∧ c.read = cur then some c
      else firstMatch cases st cur

theorem next_eq_firstMatch (cases : List Case) (m : Machine) (cur : Symbol)
    (h : m.tape[m.head]? = some cur) :
    m.next cases =
      match firstMatch cases m.state cur with
      | none => StepResult.ok m
      | some c => applyCase m c := by
  induction cases with
  | nil => rfl
  | cons c cs ih =>
      by_cases h1 : c.state = m.state
      · by_cases h2 : c.read = cur
        · simp [Machine.next, firstMatch, h, h1, h2]
        · simp [Machine.next, firstMatch, h, h1, h2, ih]
      · have hne : ¬(c.state = m.state ∧ c.read = cur) := fun hc => h1 hc.1
        simp [Machine.next, firstMatch, h1, hne, ih]

/-- Is the character a token delimiter?  The source splits on exactly the
two characters of `&[' ', '\n']` (alan.rs:151, alan.rs:164); no other
whitespace (in particular not tab) is a delimiter. -/
def isDelim (c : Char) : Bool :=
  c = ' ' || c = '\n'

/-- Rust's `str::split` over a character class, on the character list of
the input: fragments between delimiter occurrences, empty fragments
included (splitting the empty text gives one empty fragment). -/
def splitDelim : List Char → List Char → List (List Char)
  | [], acc => [acc.reverse]
  | c :: cs, acc =>
      if isDelim c then acc.reverse :: splitDelim cs []
      else splitDelim cs (c :: acc)

/-- The token stream both input files are read through
(alan.rs:151, alan.rs:164): split on space and newline, keep only the
non-empty fragments (`filter(|t| t.len() > 0)`). -/
def tokenize (s : String) : List String :=
  ((splitDelim s.data []).map (fun cs => String.mk cs)).filter
    (fun t => t.length > 0)

/-- The error conditions the parser and machine report (each is an
`eprintln!` followed by `Err(())` in the source; the source's error type
is the unit, the distinction living in the printed message). -/
inductive Err where
  | UnexpectedEnd : Err
  | InvalidStep : String → Err
  | EmptyTape : Err
  | TapeUnderflow : Err
deriving DecidableEq, Repr

/-- `parse_symbol` (alan.rs:84-91): take the next token as a symbol, or
fail (`expected symbol but reached end of input`) when the stream is
exhausted. -/
def parse_symbol : List String → Except Err (Symbol × List String)
  | [] => Except.error Err.UnexpectedEnd
  | t :: ts => Except.ok (⟨t⟩, ts)

/-- `parse_step` (alan.rs:93-103): one symbol, which must read `->`
(Right) or `<-` (Left); any other token is `InvalidStep` reporting the
offending token. -/
def parse_step (ts : List String) : Except Err (Step × List String) :=
  match parse_symbol ts with
  | Except.error e => Except.error e
  | Except.ok (symbol, ts) =>
      if symbol.name = "->" then Except.ok (Step.Right, ts)
      else if symbol.name = "<-" then Except.ok (Step.Left, ts)
      else Except.error (Err.InvalidStep symbol.name)

/-- `parse_case` (alan.rs:105-112): five fields in fixed order
{state, read, write, step, next}, propagating the first sub-failure. -/
def parse_case (ts : List String) : Except Err (Case × List String) :=
  match parse_symbol ts with
  | Except.error e => Except.error e
  | Except.ok (state, ts) =>
  match parse_symbol ts with
  | Except.error e => Except.error e
  | Except.ok (read, ts) =>
  match parse_symbol ts with
  | Except.error e => Except.error e
  | Except.ok (write, ts) =>
  match parse_step ts with
  | Except.error e => Except.error e
  | Except.ok (step, ts) =>
  match parse_symbol ts with
  | Except.error e => Except.error e
  | Except.ok (next, ts) => Except.ok (⟨state, read, write, step, next⟩, ts)

theorem parse_case_ok_length (ts : List String) (c : Case) (rest : List String)
    (h : parse_case ts = Except.ok (c, rest)) : rest.length + 5 = ts.length := by
  match ts with
  | [] => simp [parse_case, parse_symbol] at h
  | [a] => simp [parse_case, parse_symbol] at h
  | [a, b] => simp [parse_case, parse_symbol] at h
  | [a, b, d] => simp [parse_case, parse_symbol, parse_step] at h
  | [a, b, d, e] =>
      by_cases h1 : e = "->"
      · simp [parse_case, parse_symbol, parse_step, h1] at h
      · by_cases h2 : e = "<-"
        · simp [parse_case, parse_symbol, parse_step, h1, h2] at h
        · simp [parse_case, parse_symbol, parse_step, h1, h2] at h
  | a :: b :: d :: e :: f :: r =>
      by_cases h1 : e = "->"
      · simp [parse_case, parse_symbol, parse_step, h1] at h
        obtain ⟨-, h2⟩ := h
        subst h2
        simp
      · by_cases h2 : e = "<-"
        · simp [parse_case, parse_symbol, parse_step, h1, h2] at h
          obtain ⟨-, h3⟩ := h
          subst h3
          simp
        · simp [parse_case, parse_symbol, parse_step, h1, h2] at h

/-- `parse_cases` (alan.rs:114-121): parse cases while tokens remain. -/
def parse_cases (ts : List String) : Except Err (List Case) :=
  match ts with
  | [] => Except.ok []
  | t :: ts1 =>
      match h : parse_case (t :: ts1) with
      | Except.error e => Except.error e
      | Except.ok (c, rest) =>
          match parse_cases rest with
          | Except.error e => Except.error e
          | Except.ok cases => Except.ok (c :: cases)
termination_by ts.length
decreasing_by
  simp_wf
  have hlen := parse_case_ok_length (t :: ts) c rest h
  simp at hlen
  omega

/-- `parse_tape` (alan.rs:123-130): parse single symbols while tokens
remain.  On a non-empty stream `parse_symbol` always succeeds and returns
the tail, so the loop walks the token list one element at a time. -/
def parse_tape : List String → Except Err (List Symbol)
  | [] => Except.ok []
  | t :: ts1 =>
      match parse_symbol (t :: ts1) with
      | Except.error e => Except.error e
      | Except.ok (s, _) =>
          match parse_tape ts1 with
          | Except.error e => Except.error e
          | Except.ok symbols => Except.ok (s :: symbols)

/-- A run of `n` spaces, as printed by the caret loop of
`Machine::print`. -/
def spaces (n : Nat) : String :=
  String.mk (List.replicate n ' ')

/-- The buffer-building loop of `Machine::print` (alan.rs:69-74): walk
the tape appending `name ++ " "` for each cell, remembering the byte
length of the buffer just before the cell at the head index was appended
(`head` stays 0 when the head index is never reached). -/
def buildBuffer : List Symbol → Nat → Nat → String → Nat → String × Nat
  | [], _, _, buffer, caret => (buffer, caret)
  | s :: rest, i, headIdx, buffer, caret =>
      let caret := if i = headIdx then buffer.utf8ByteSize else caret
      buildBuffer rest (i + 1) headIdx (buffer ++ s.name ++ " ") caret

/-- `Machine::print` (alan.rs:64-81): the two lines printed per step —
`STATE: sym0 sym1 ... ` and a caret line aligned (in byte columns) under
the cell at the head index. -/
def Machine.printLines (m : Machine) : List String :=
  let bc := buildBuffer m.tape 0 m.head (m.state.name ++ ": ") 0
  [bc.1, spaces bc.2 ++ "^"]

/-- Outcome of a run: the outcome of `start`/`main` (alan.rs:136-196)
paired with everything printed to standard output.  `success` is
`ExitCode::SUCCESS`, `failure` is `ExitCode::FAILURE` with the error that
was reported, `panicked` is the abort of an out-of-bounds tape index, and
`outOfFuel` reports that the given fuel did not suffice to finish the
(possibly endless) simulation. -/
inductive Outcome where
  | success : List String → Outcome
  | failure : Err → List String → Outcome
  | panicked : List String → Outcome
  | outOfFuel : List String → Outcome
deriving DecidableEq, Repr

/-- The driver loop of `start` (alan.rs:182-186): while `halt` is false,
print the machine, set `halt := true` speculatively, and take one step;
an `Err` from the step aborts the run with failure status. -/
def loop : Nat → Machine → List Case → List String → Outcome
  | 0, m, _, out => if m.halt then Outcome.success out else Outcome.outOfFuel out
  | fuel + 1, m, cases, out =>
      if m.halt then Outcome.success out
      else
        let out := out ++ m.printLines
        match Machine.next { m with halt := true } cases with
        | StepResult.ok m1 => loop fuel m1 cases out
        | StepResult.underflow _ => Outcome.failure Err.TapeUnderflow out
        | StepResult.oob => Outcome.panicked out

/-- `start` (alan.rs:136-189), from the two raw file texts onward (the
argument handling and file reads are external collaborators): parse the
cases and the tape, reject an empty tape (`tape.last()` is `None`), and
run the machine from the hardcoded state `Inc` at head 0. -/
def start (alanText tapeText : String) (fuel : Nat) : Outcome :=
  match parse_cases (tokenize alanText) with
  | Except.error e => Outcome.failure e []
  | Except.ok cases =>
  match parse_tape (tokenize tapeText) with
  | Except.error e => Outcome.failure e []
  | Except.ok tape =>
  match tape.getLast? with
  | none => Outcome.failure Err.EmptyTape []
  | some tape_default =>
      loop fuel
        { state := ⟨"Inc"⟩, tape := tape, tape_default := tape_default,
          head := 0, halt := false }
        cases []

/-! ## Concrete example programs used by the theorems below -/

/-- A rule whose move is Left, matching state `A` reading `0`. -/
def leftCase : Case := ⟨⟨"A"⟩, ⟨"0"⟩, ⟨"1"⟩, Step.Left, ⟨"B"⟩⟩

/-- The one-rule program `A 0 1 <- B`. -/
def leftCases : List Case := [leftCase]

/-- A machine in state `A` on tape `[0]` with the head at 0, whose halt
flag the driver has just set to true. -/
def leftM : Machine := ⟨⟨"A"⟩, [⟨"0"⟩], ⟨"0"⟩, 0, true⟩

/-- What `leftM` looks like after the failing Left step: the tape cell
was overwritten with `1`, everything else untouched. -/
def leftMAfter : Machine := ⟨⟨"A"⟩, [⟨"1"⟩], ⟨"0"⟩, 0, true⟩

/-- The one-rule program `Inc 0 0 -> Inc`, which walks right forever. -/
def incCases : List Case := [⟨⟨"Inc"⟩, ⟨"0"⟩, ⟨"0"⟩, Step.Right, ⟨"Inc"⟩⟩]

/-- Start of the `incCases` run: state `Inc`, tape `[0]`, head 0. -/
def incM0 : Machine := ⟨⟨"Inc"⟩, [⟨"0"⟩], ⟨"0"⟩, 0, true⟩

/-- After one `incCases` step: the head (1) now equals the tape length. -/
def incM1 : Machine := ⟨⟨"Inc"⟩, [⟨"0"⟩], ⟨"0"⟩, 1, true⟩

/-- The one-rule program `S0 0 1 -> S1`. -/
def c5Cases : List Case := [⟨⟨"S0"⟩, ⟨"0"⟩, ⟨"1"⟩, Step.Right, ⟨"S1"⟩⟩]

/-- Start state for the `c5Cases` run: state `S0`, tape `[0]`, head 0
(halt speculatively set to true by the driver). -/
def c5M0 : Machine := ⟨⟨"S0"⟩, [⟨"0"⟩], ⟨"0"⟩, 0, true⟩

/-- After one `c5Cases` step: tape `[1]`, head 1, state `S1`. -/
def c5M1 : Machine := ⟨⟨"S1"⟩, [⟨"1"⟩], ⟨"0"⟩, 1, false⟩

/-! ## The claims -/

/-- C1, counterexample to the claim as stated: with the one-rule program
`A 0 1 <- B` and a machine in state `A` at head 0 on tape `[0]` with
`halt = true`, a rule does match the current `(state, tape[head])` pair,
yet the step does not clear `halt` back to false: the Left move from
head 0 takes the tape-underflow error return, which happens before the
`halt = false` assignment, so the machine the caller observes still has
`halt = true`. -/
theorem claim_C1_counterexample :
    firstMatch leftCases leftM.state (Symbol.mk "0") = some leftCase ∧
    leftM.tape[leftM.head]? = some (Symbol.mk "0") ∧
    leftM.halt = true ∧
    Machine.next leftM leftCases = StepResult.underflow leftMAfter ∧
    leftMAfter.halt = true := by
  decide

/-- C1, amended: for a machine whose head is on the tape and whose halt
flag the caller has set to true, a step that returns normally (`Ok`)
clears `halt` back to false if and only if some rule matched the current
`(state, tape[head])` pair; when no rule matches, the step returns the
machine completely unchanged (so `halt` stays true).  The amendment
excludes the tape-underflow error return, where a rule matched but
`halt` is left unchanged (see the counterexample). -/
theorem claim_C1 (cases : List Case) (m : Machine) (cur : Symbol)
    (hcur : m.tape[m.head]? = some cur) (hhalt : m.halt = true) :
    (firstMatch cases m.state cur = none → Machine.next m cases = StepResult.ok m) ∧
    (∀ m1, Machine.next m cases = StepResult.ok m1 →
      (m1.halt = false ↔ firstMatch cases m.state cur ≠ none)) := by
  have hmain := next_eq_firstMatch cases m cur hcur
  constructor
  · intro hnone
    rw [hmain, hnone]
  · intro m1 hok
    rw [hmain] at hok
    cases hfm : firstMatch cases m.state cur with
    | none =>
        rw [hfm] at hok
        simp only [StepResult.ok.injEq] at hok
        subst hok
        simp [hhalt]
    | some c =>
        rw [hfm] at hok
        simp only [applyCase] at hok
        cases hstep : c.step with
        | Left =>
            rw [hstep] at hok
            by_cases hz : m.head = 0
            · simp [hz] at hok
            · simp only [hz, if_false] at hok
              simp only [StepResult.ok.injEq] at hok
              subst hok
              simp
        | Right =>
            rw [hstep] at hok
            simp only [StepResult.ok.injEq] at hok
            subst hok
            simp

/-- C1 witness: the amended statement instantiated on the program
`S0 0 1 -> S1` run from `c5M0` (whose rule does match, so the step
clears halt). -/
theorem claim_C1_witness :
    (c5M0.tape[c5M0.head]? = some (Symbol.mk "0") ∧ c5M0.halt = true) ∧
    ((firstMatch c5Cases c5M0.state (Symbol.mk "0") = none →
        Machine.next c5M0 c5Cases = StepResult.ok c5M0) ∧
      (∀ m1, Machine.next c5M0 c5Cases = StepResult.ok m1 →
        (m1.halt = false ↔ firstMatch c5Cases c5M0.state (Symbol.mk "0") ≠ none))) :=
  ⟨⟨rfl, rfl⟩, claim_C1 c5Cases c5M0 (Symbol.mk "0") rfl rfl⟩

/-- C2: moving Right has no upper-bound check.  On the program
`Inc 0 0 -> Inc` with tape `[0]`, one step succeeds and leaves the head
equal to the tape length; the next step, scanning a rule whose state
matches, indexes `tape[head]` out of bounds (`tape[head]?` is `none`, so
the step is only total under the precondition `head < tape.length`). -/
theorem claim_C2 :
    Machine.next incM0 incCases = StepResult.ok { incM1 with halt := false } ∧
    incM1.head = incM1.tape.length ∧
    incM1.tape[incM1.head]? = none ∧
    Machine.next incM1 incCases = StepResult.oob := by
  decide

/-- C5: on the single rule `(S0, 0, 1, Right, S1)` with tape `[0]`,
state `S0`, head 0: one step yields tape `[1]`, head 1, state `S1`; a
second step (halt having been re-set to true by the driver) finds no
matching rule for state `S1`, returns the machine unchanged — tape still
`[1]`, halt still true. -/
theorem claim_C5 :
    Machine.next c5M0 c5Cases = StepResult.ok c5M1 ∧
    c5M1.tape = [Symbol.mk "1"] ∧ c5M1.head = 1 ∧ c5M1.state = Symbol.mk "S1" ∧
    Machine.next { c5M1 with halt := true } c5Cases =
      StepResult.ok { c5M1 with halt := true } ∧
    ({ c5M1 with halt := true } : Machine).tape = [Symbol.mk "1"] ∧
    ({ c5M1 with halt := true } : Machine).halt = true := by
  decide

/-- `leftM` before the driver speculatively sets `halt := true`. -/
def leftMrun : Machine := ⟨⟨"A"⟩, [⟨"0"⟩], ⟨"0"⟩, 0, false⟩

/-- C3: when the first rule matching `(state, tape[head])` moves Left,
a machine with head 0 gets the tape-underflow error return (with the
write already applied), while a machine with head > 0 succeeds, the head
decremented; and inside the driver loop, an underflow step ends the
whole run with the `TapeUnderflow` failure outcome (the failure exit
status), not with the normal-halt success outcome. -/
theorem claim_C3 (cases : List Case) (m : Machine) (cur : Symbol) (c : Case)
    (hcur : m.tape[m.head]? = some cur)
    (hfm : firstMatch cases m.state cur = some c) (hstep : c.step = Step.Left) :
    (m.head = 0 → Machine.next m cases =
        StepResult.underflow { m with tape := m.tape.set m.head c.write }) ∧
    (0 < m.head → Machine.next m cases =
        StepResult.ok { m with tape := m.tape.set m.head c.write,
                               head := m.head - 1, state := c.next, halt := false }) ∧
    (m.head = 0 → m.halt = false → ∀ fuel out,
        loop (fuel + 1) m cases out =
          Outcome.failure Err.TapeUnderflow (out ++ m.printLines)) := by
  have hmain := next_eq_firstMatch cases m cur hcur
  rw [hfm] at hmain
  refine ⟨?_, ?_, ?_⟩
  · intro hz
    rw [hmain]
    simp [applyCase, hstep, hz]
  · intro hpos
    rw [hmain]
    have hz : ¬ m.head = 0 := Nat.pos_iff_ne_zero.mp hpos
    simp [applyCase, hstep, hz]
  · intro hz hhalt fuel out
    have h2 : Machine.next { m with halt := true } cases =
        match firstMatch cases m.state cur with
        | none => StepResult.ok { m with halt := true }
        | some c => applyCase { m with halt := true } c :=
      next_eq_firstMatch cases { m with halt := true } cur hcur
    rw [hfm] at h2
    simp only [loop, hhalt, Bool.false_eq_true, if_false]
    rw [h2]
    simp [applyCase, hstep, hz]

/-- C3 witness: the theorem instantiated on the program `A 0 1 <- B`
and the machine `leftMrun` (state `A`, tape `[0]`, head 0, running). -/
theorem claim_C3_witness :
    (leftMrun.tape[leftMrun.head]? = some (Symbol.mk "0") ∧
      firstMatch leftCases leftMrun.state (Symbol.mk "0") = some leftCase ∧
      leftCase.step = Step.Left) ∧
    ((leftMrun.head = 0 → Machine.next leftMrun leftCases =
        StepResult.underflow
          { leftMrun with tape := leftMrun.tape.set leftMrun.head leftCase.write }) ∧
      (0 < leftMrun.head → Machine.next leftMrun leftCases =
        StepResult.ok
          { leftMrun with tape := leftMrun.tape.set leftMrun.head leftCase.write,
                          head := leftMrun.head - 1, state := leftCase.next,
                          halt := false }) ∧
      (leftMrun.head = 0 → leftMrun.halt = false → ∀ fuel out,
        loop (fuel + 1) leftMrun leftCases out =
          Outcome.failure Err.TapeUnderflow (out ++ leftMrun.printLines))) :=
  ⟨⟨rfl, rfl, rfl⟩, claim_C3 leftCases leftMrun (Symbol.mk "0") leftCase rfl rfl rfl⟩

/-- C4: the failing Left-at-head-0 step is not atomic with respect to
the tape — when `Machine::next` returns the underflow error, the cell at
the head has already been overwritten with the matched rule's write
symbol, while the machine's state, head and halt flag are unchanged. -/
theorem claim_C4 (cases : List Case) (m : Machine) (cur : Symbol) (c : Case)
    (m1 : Machine)
    (hcur : m.tape[m.head]? = some cur)
    (hfm : firstMatch cases m.state cur = some c)
    (hstep : c.step = Step.Left) (hz : m.head = 0)
    (hrun : Machine.next m cases = StepResult.underflow m1) :
    m1.tape = m.tape.set m.head c.write ∧
    m1.tape[m.head]? = some c.write ∧
    m1.state = m.state ∧ m1.head = m.head ∧ m1.halt = m.halt := by
  have hlt : m.head < m.tape.length := by
    by_contra hh
    rw [List.getElem?_eq_none (Nat.le_of_not_lt hh)] at hcur
    exact Option.noConfusion hcur
  have hmain := next_eq_firstMatch cases m cur hcur
  rw [hfm] at hmain
  rw [hmain] at hrun
  simp only [applyCase, hstep, hz, if_pos] at hrun
  have hm1 : m1 = { m with tape := m.tape.set m.head c.write } := by
    cases hrun
    simp [hz]
  subst hm1
  refine ⟨rfl, ?_, rfl, rfl, rfl⟩
  exact List.getElem?_set_eq_of_lt c.write hlt

/-- C4 witness: the theorem instantiated on `A 0 1 <- B` and `leftM`,
whose failing step leaves behind `leftMAfter` with tape `[1]`. -/
theorem claim_C4_witness :
    (leftM.tape[leftM.head]? = some (Symbol.mk "0") ∧
      firstMatch leftCases leftM.state (Symbol.mk "0") = some leftCase ∧
      leftCase.step = Step.Left ∧ leftM.head = 0 ∧
      Machine.next leftM leftCases = StepResult.underflow leftMAfter) ∧
    (leftMAfter.tape = leftM.tape.set leftM.head leftCase.write ∧
      leftMAfter.tape[leftM.head]? = some leftCase.write ∧
      leftMAfter.state = leftM.state ∧ leftMAfter.head = leftM.head ∧
      leftMAfter.halt = leftM.halt) :=
  ⟨⟨rfl, rfl, rfl, rfl, rfl⟩,
    claim_C4 leftCases leftM (Symbol.mk "0") leftCase leftMAfter rfl rfl rfl rfl rfl⟩

theorem firstMatch_append (cases extra : List Case) (st cur : Symbol) (c : Case)
    (h : firstMatch cases st cur = some c) :
    firstMatch (cases ++ extra) st cur = some c := by
  induction cases with
  | nil => simp [firstMatch] at h
  | cons d ds ih =>
      simp only [List.cons_append, firstMatch] at h ⊢
      by_cases hd : d.state = st ∧ d.read = cur
      · rw [if_pos hd] at h ⊢
        exact h
      · rw [if_neg hd] at h ⊢
        exact ih h

/-- C6: rule precedence is first-match-in-file-order.  With the head on
the tape, the step's entire effect is `applyCase` of the first rule
matching `(state, tape[head])` — exactly one rule application — and it
is unchanged by any rules appended after that match (duplicate
`(state, read)` rules later in the list are never applied); when no rule
matches, zero applications occur and the machine is returned unchanged. -/
theorem claim_C6 (cases extra : List Case) (m : Machine) (cur : Symbol) (c : Case)
    (hcur : m.tape[m.head]? = some cur) :
    (firstMatch cases m.state cur = none → Machine.next m cases = StepResult.ok m) ∧
    (firstMatch cases m.state cur = some c →
      Machine.next m cases = applyCase m c ∧
      Machine.next m (cases ++ extra) = applyCase m c) := by
  have hmain := next_eq_firstMatch cases m cur hcur
  constructor
  · intro hnone
    rw [hmain, hnone]
  · intro hsome
    refine ⟨?_, ?_⟩
    · rw [hmain, hsome]
    · have h2 := next_eq_firstMatch (cases ++ extra) m cur hcur
      rw [firstMatch_append cases extra m.state cur c hsome] at h2
      exact h2

/-- A first rule for the pair `(A, 0)`. -/
def dupCase1 : Case := ⟨⟨"A"⟩, ⟨"0"⟩, ⟨"1"⟩, Step.Right, ⟨"B"⟩⟩

/-- A second, shadowed rule for the same pair `(A, 0)`. -/
def dupCase2 : Case := ⟨⟨"A"⟩, ⟨"0"⟩, ⟨"2"⟩, Step.Right, ⟨"C"⟩⟩

/-- A program with two rules for the same `(state, read)` pair. -/
def dupCases : List Case := [dupCase1, dupCase2]

/-- C6 witness: on the duplicate-rule program, the step from `leftM`
(state `A`, reading `0`) applies `dupCase1`, and appending yet another
copy of `dupCase2` changes nothing. -/
theorem claim_C6_witness :
    leftM.tape[leftM.head]? = some (Symbol.mk "0") ∧
    ((firstMatch dupCases leftM.state (Symbol.mk "0") = none →
        Machine.next leftM dupCases = StepResult.ok leftM) ∧
      (firstMatch dupCases leftM.state (Symbol.mk "0") = some dupCase1 →
        Machine.next leftM dupCases = applyCase leftM dupCase1 ∧
        Machine.next leftM (dupCases ++ [dupCase2]) = applyCase leftM dupCase1)) :=
  ⟨rfl, claim_C6 dupCases [dupCase2] leftM (Symbol.mk "0") dupCase1 rfl⟩

theorem splitDelim_all_delim (cs : List Char) (hyp : ∀ c ∈ cs, isDelim c = true) :
    ∀ l ∈ splitDelim cs [], l = [] := by
  induction cs with
  | nil =>
      intro l hl
      simp [splitDelim] at hl
      exact hl
  | cons c cs ih =>
      intro l hl
      have hc : isDelim c = true := hyp c (List.mem_cons_self c cs)
      simp only [splitDelim, hc, if_true, List.reverse_nil] at hl
      rcases List.mem_cons.mp hl with h | h
      · exact h
      · exact ih (fun d hd => hyp d (List.mem_cons_of_mem c hd)) l h

/-- C7: the tokenizer splits on space and newline only, discards empty
fragments and never fails: `"A B\nC"` tokenizes to exactly
`[A, B, C]`; every string made only of spaces and newlines tokenizes to
the empty sequence; and a tab is not a delimiter, so a fragment
containing one stays a single token. -/
theorem claim_C7 :
    tokenize "A B\nC" = ["A", "B", "C"] ∧
    (∀ s : String, (∀ c ∈ s.data, c = ' ' ∨ c = '\n') → tokenize s = []) ∧
    tokenize "A\tB" = ["A\tB"] := by
  refine ⟨by decide, ?_, by decide⟩
  intro s hs
  have hd : ∀ c ∈ s.data, isDelim c = true := by
    intro c hc
    rcases hs c hc with h | h <;> simp [isDelim, h]
  unfold tokenize
  apply List.filter_eq_nil_iff.mpr
  intro t ht
  rcases List.mem_map.mp ht with ⟨l, hl, rfl⟩
  have hempty : l = [] := splitDelim_all_delim s.data hd l hl
  subst hempty
  decide

/-- C7 witness: the all-whitespace part of the theorem instantiated at
the string of a space, a newline and a space. -/
theorem claim_C7_witness :
    (∀ c ∈ (" \n ").data, c = ' ' ∨ c = '\n') ∧ tokenize " \n " = [] :=
  ⟨by decide, claim_C7.2.1 " \n " (by decide)⟩

/-- C8: in step position, `parse_step` yields Right exactly on the
token `->` and Left exactly on `<-`; any other token fails with
`InvalidStep` reporting that token; and parsing `S0 0 1 ?? S1` as a case
fails with `InvalidStep "??"`. -/
theorem claim_C8 (t : String) (ts : List String) :
    (parse_step (t :: ts) = Except.ok (Step.Right, ts) ↔ t = "->") ∧
    (parse_step (t :: ts) = Except.ok (Step.Left, ts) ↔ t = "<-") ∧
    (t ≠ "->" → t ≠ "<-" →
      parse_step (t :: ts) = Except.error (Err.InvalidStep t)) ∧
    parse_case (tokenize "S0 0 1 ?? S1") = Except.error (Err.InvalidStep "??") := by
  refine ⟨?_, ?_, ?_, by rfl⟩
  · by_cases h1 : t = "->"
    · simp [parse_step, parse_symbol, h1]
    · by_cases h2 : t = "<-"
      · simp [parse_step, parse_symbol, h1, h2]
      · simp [parse_step, parse_symbol, h1, h2]
  · by_cases h1 : t = "->"
    · simp [parse_step, parse_symbol, h1]
    · by_cases h2 : t = "<-"
      · simp [parse_step, parse_symbol, h1, h2]
      · simp [parse_step, parse_symbol, h1, h2]
  · intro h1 h2
    simp [parse_step, parse_symbol, h1, h2]

/-- C8 witness: the invalid-token part of the theorem instantiated on
the token `??` at the end of the stream. -/
theorem claim_C8_witness :
    (("??" : String) ≠ "->" ∧ ("??" : String) ≠ "<-") ∧
    parse_step ["??"] = Except.error (Err.InvalidStep "??") :=
  ⟨⟨by decide, by decide⟩, (claim_C8 "??" []).2.2.1 (by decide) (by decide)⟩

/-- C9: when the tape file tokenizes to zero tokens (and the program
file itself parses), `parse_tape` succeeds with the empty sequence — the
emptiness check lives in the caller, not the parser — and the run fails
with `EmptyTape`, a failure (non-zero) outcome carrying no simulation
output at all. -/
theorem claim_C9 (alanText tapeText : String) (fuel : Nat) (cases : List Case)
    (hcases : parse_cases (tokenize alanText) = Except.ok cases)
    (htok : tokenize tapeText = []) :
    parse_tape (tokenize tapeText) = Except.ok [] ∧
    start alanText tapeText fuel = Outcome.failure Err.EmptyTape [] := by
  have htape : parse_tape (tokenize tapeText) = Except.ok [] := by
    rw [htok]
    rfl
  refine ⟨htape, ?_⟩
  simp [start, hcases, htape]

/-- C9 witness: the theorem instantiated on two empty input files. -/
theorem claim_C9_witness :
    (parse_cases (tokenize "") = Except.ok [] ∧ tokenize "" = []) ∧
    (parse_tape (tokenize "") = Except.ok [] ∧
      start "" "" 3 = Outcome.failure Err.EmptyTape []) :=
  ⟨⟨by rw [show tokenize "" = ([] : List String) from rfl]; simp [parse_cases], rfl⟩,
    claim_C9 "" "" 3 []
      (by rw [show tokenize "" = ([] : List String) from rfl]; simp [parse_cases]) rfl⟩

/-- C10: the embedded run function is deterministic — equal program
texts and equal tape texts give identical outcomes, printed step lines
included (the output lives inside the `Outcome`). -/
theorem claim_C10 (alan1 alan2 tape1 tape2 : String) (fuel : Nat)
    (ha : alan1 = alan2) (ht : tape1 = tape2) :
    start alan1 tape1 fuel = start alan2 tape2 fuel := by
  rw [ha, ht]

/-- C10 witness: two runs of the increment program on the same tape. -/
theorem claim_C10_witness :
    (("Inc 0 1 -> Halt" : String) = "Inc 0 1 -> Halt" ∧
      ("0 0" : String) = "0 0") ∧
    start "Inc 0 1 -> Halt" "0 0" 10 = start "Inc 0 1 -> Halt" "0 0" 10 :=
  ⟨⟨rfl, rfl⟩, claim_C10 "Inc 0 1 -> Halt" "Inc 0 1 -> Halt" "0 0" "0 0" 10 rfl rfl⟩

end Alan
